import Mathlib

/-!
Shallow embedding of `digitalocean/baseapi.py` (the `Requester` class):
token round-robin, request dispatch, error classification, pagination
walk and rate-limit bookkeeping, as exercised through `get_data`.

The HTTP layer is abstracted as a scripted session: the state carries a
list of `Response` values and each `_perform_request` consumes the next
one.  Everything else is translated statement by statement from the
Python source.  Python exceptions are modelled by the `DOErr` sum; when
an exception is raised the model returns only the exception (no claim
below inspects post-exception state).
-/

namespace DO

/-- JSON-like values, the decoded bodies and parameter values. -/
inductive JVal where
  | null
  | bool (b : Bool)
  | num (n : Int)
  | str (s : String)
  | list (xs : List JVal)
  | obj (fields : List (String × JVal))

/-- Python dict with string keys, insertion ordered. -/
abbrev Dict := List (String × JVal)

/-- Python truthiness of a JSON value (`if x:`). -/
def truthy : JVal → Bool
  | .null => false
  | .bool b => b
  | .num n => n != 0
  | .str s => s != ""
  | .list xs => !xs.isEmpty
  | .obj fs => !fs.isEmpty

/-- Dict lookup (`d[k]` / `d.get(k)`): value at the first matching key. -/
def dget (d : Dict) (k : String) : Option JVal :=
  match d with
  | [] => none
  | (k1, v) :: rest => if k1 = k then some v else dget rest k

/-- Dict store (`d[k] = v`): overwrite in place, append when absent,
as a Python dict does. -/
def dset (d : Dict) (k : String) (v : JVal) : Dict :=
  match d with
  | [] => [(k, v)]
  | (k1, v1) :: rest => if k1 = k then (k1, v) :: rest else (k1, v1) :: dset rest k v

/-- The exceptions `get_data` and its helpers can raise.  The last four
are Python built-in exceptions escaping uncaught; `scriptExhausted`
only signals that the scripted session ran out of responses. -/
inductive DOErr where
  | tokenError
  | notFoundError
  | jsonReadError (msg : String)
  | dataReadError (msg : JVal)
  | endPointError
  | indexError
  | valueError (msg : String)
  | typeError
  | attributeError
  | scriptExhausted

/-- HTTP verbs of the dispatch table in `_perform_request`. -/
inductive Method where
  | GET | POST | PUT | PATCH | DELETE
deriving DecidableEq

/-- One wire response: status code, body decode result (`.json()`),
and headers.  `body = .error e` models a body on which `.json()`
raises a `ValueError` with message `e`. -/
structure Response where
  status : Nat
  body : Except String JVal
  headers : List (String × String)

/-- Character-wise lowercase of a string. -/
def lowerStr (s : String) : String := ⟨s.data.map Char.toLower⟩

/-- Case-insensitive header lookup, as on a requests header mapping. -/
def hget (headers : List (String × String)) (k : String) : Option String :=
  match headers with
  | [] => none
  | (k1, v) :: rest => if lowerStr k1 = lowerStr k then some v else hget rest k

/-- The mutable state of a `Requester`: token sequence and cursor
(`tokens`, `_last_used`), the three rate-limit fields, and the scripted
session of responses still to be served. -/
structure ReqState where
  tokens : List String
  lastUsed : Nat
  ratelimitLimit : Option String
  ratelimitRemaining : Option String
  ratelimitReset : Option String
  responses : List Response

/-- Reading the `token` property: advance the cursor round-robin and
return the token there; an empty sequence yields `""` unchanged. -/
def tokenRead (st : ReqState) : String × ReqState :=
  if st.tokens.isEmpty then ("", st)
  else
    let i := (st.lastUsed + 1) % st.tokens.length
    (st.tokens.getD i "", { st with lastUsed := i })

/-- The `token` setter with a list argument: reset the cursor and
replace the sequence. -/
def tokenSet (st : ReqState) (ts : List String) : ReqState :=
  { st with lastUsed := 0, tokens := ts }

/-- The `token` setter with a single string (backward compatibility
branch wraps it in a one-element list). -/
def tokenSetSingle (st : ReqState) (t : String) : ReqState :=
  tokenSet st [t]

/-- `_perform_request`: read `token` for the emptiness check, read it
again for the `Authorization` header, then issue the request — here,
pop the next scripted response.  The returned `String` is the token
placed in the `Authorization` header.  `url`, `method` and `params`
shape the real request but not the scripted response. -/
def performRequest (st : ReqState) (url : String) (method : Method) (params : Dict) :
    Except DOErr (Response × String × ReqState) :=
  let (t1, st1) := tokenRead st
  if t1 = "" then .error .tokenError
  else
    let (t2, st2) := tokenRead st1
    match st2.responses with
    | [] => .error .scriptExhausted
    | r :: rest => .ok (r, t2, { st2 with responses := rest })

/-- `__init_ratelimit`: record the three rate-limit headers. -/
def initRatelimit (st : ReqState) (headers : List (String × String)) : ReqState :=
  { st with
      ratelimitLimit := hget headers "Ratelimit-Limit"
      ratelimitRemaining := hget headers "Ratelimit-Remaining"
      ratelimitReset := hget headers "Ratelimit-Reset" }

/-- `v.get(k, dflt)`: mapping lookup with a default; calling `.get` on a
non-mapping raises `AttributeError`. -/
def dictGetDefault (v : JVal) (k : String) (dflt : JVal) : Except DOErr JVal :=
  match v with
  | .obj fs => .ok ((dget fs k).getD dflt)
  | _ => .error .attributeError

/-- The chained lookup `data.get("links", {}).get("pages", {}).get("next")`
used both by the pagination loop condition and by `get_data`
(`.get("next")` with no default yields `None`, modelled as `.null`). -/
def chainNext (data : JVal) : Except DOErr JVal := do
  let links ← dictGetDefault data "links" (.obj [])
  let pages ← dictGetDefault links "pages" (.obj [])
  dictGetDefault pages "next" .null

/-- Split a character list at the first occurrence of the separator. -/
def splitOnceChar (c : Char) : List Char → Option (List Char × List Char)
  | [] => none
  | x :: xs =>
    if x = c then some ([], xs)
    else
      match splitOnceChar c xs with
      | none => none
      | some (l, r) => some (x :: l, r)

/-- Split a string at the first occurrence of the separator character,
as `s.split(sep, 1)`; `none` when the separator does not occur (so the
two-target unpacking in the source would raise `ValueError`). -/
def splitFirst (s : String) (c : Char) : Option (String × String) :=
  match splitOnceChar c s.data with
  | none => none
  | some (l, r) => some (⟨l⟩, ⟨r⟩)

/-- Split a character list at every occurrence of the separator, as
`s.split(sep)` does: the empty string yields one empty field. -/
def splitAllChar (c : Char) : List Char → List (List Char)
  | [] => [[]]
  | x :: xs =>
    match splitAllChar c xs with
    | [] => if x = c then [[], []] else [[x]]
    | l :: ls => if x = c then [] :: l :: ls else (x :: l) :: ls

/-- Append a query pair the way `urllib.parse.parse_qs` accumulates
repeated keys: extend the existing entry, else append a new one. -/
def addQsPair (acc : List (String × List String)) (k v : String) :
    List (String × List String) :=
  match acc with
  | [] => [(k, [v])]
  | (k1, vs) :: rest =>
    if k1 = k then (k1, vs ++ [v]) :: rest else (k1, vs) :: addQsPair rest k v

/-- Process one `name=value` field: drop it when it has no equals sign
or an empty value (blank values are not kept by default), else gather
it under its key. -/
def qsFoldStep (acc : List (String × List String)) (field : String) :
    List (String × List String) :=
  match splitFirst field '=' with
  | none => acc
  | some (k, v) => if v = "" then acc else addQsPair acc k v

/-- `urllib.parse.parse_qs` on queries without percent-escapes or plus
signs (the only queries the claims exercise): split fields on the
ampersand, split each field at its first equals sign, drop fields with
no equals sign or an empty value, and gather values per key in order
of first occurrence. -/
def parse_qs (query : String) : List (String × List String) :=
  ((splitAllChar '&' query.data).map (fun f => (⟨f⟩ : String))).foldl qsFoldStep []

/-- The parameter merge of the pagination loop: write every parsed
query key into the outgoing parameter mapping, each value a list of
strings as `parse_qs` produces it. -/
def mergeQuery (params : Dict) (query : String) : Dict :=
  (parse_qs query).foldl
    (fun acc kv => dset acc kv.1 (.list (kv.2.map JVal.str))) params

/-- The list payload of a value, when it is a list
(`isinstance(value, list)`). -/
def asList : JVal → Option (List JVal)
  | .list xs => some xs
  | _ => none

/-- One key of the page-merge loop body: a list value concatenates onto
an existing list (`all_data[key] += value`, a `TypeError` when the
existing value is not a list), anything else overwrites. -/
def mergeStep (a : Dict) (k : String) (v : JVal) : Except DOErr Dict :=
  match asList v with
  | none => .ok (dset a k v)
  | some xs =>
    match dget a k with
    | none => .ok (dset a k v)
    | some w =>
      match asList w with
      | some ys => .ok (dset a k (.list (ys ++ xs)))
      | none => .error .typeError

/-- `for key, value in data.items(): ...` — merge one page into the
accumulator, item by item in insertion order. -/
def mergeObj (acc : Dict) : List (String × JVal) → Except DOErr Dict
  | [] => .ok acc
  | (k, v) :: rest =>
    match mergeStep acc k v with
    | .error e => .error e
    | .ok a1 => mergeObj a1 rest

/-- The `while` loop of `_deal_with_pagination`, fuelled by the length
of the scripted session (each iteration consumes exactly one scripted
response, so the fuel never runs out before the script does).  The
loop condition and the URL split precede the fuel check, matching the
order of evaluation in the source.  The non-mapping fall-through cases
model the container-protocol errors Python would raise there; they are
unreachable from `get_data`, whose first page already passed a mapping
lookup. -/
def paginationLoop (method : Method) : Nat → ReqState → Dict → JVal → JVal →
    Except DOErr (JVal × Dict × ReqState)
  | fuel, st, params, data, allData =>
    match chainNext data with
    | .error e => .error e
    | .ok n =>
      if truthy n then
        match n with
        | .str s =>
          match splitFirst s '?' with
          | none => .error (.valueError "not enough values to unpack")
          | some (_u, query) =>
            let params1 := mergeQuery params query
            match fuel with
            | 0 => .error .scriptExhausted
            | fuel1 + 1 =>
              match performRequest st _u method params1 with
              | .error e => .error e
              | .ok (r, _t, st1) =>
                match r.body with
                | .error e => .error (.valueError e)
                | .ok d =>
                  match d with
                  | .obj pageD =>
                    match allData with
                    | .obj accD =>
                      match mergeObj accD pageD with
                      | .error e => .error e
                      | .ok acc1 => paginationLoop method fuel1 st1 params1 d (.obj acc1)
                    | _ => .error .typeError
                  | _ => .error .attributeError
        | _ => .error .attributeError
      else .ok (allData, params, st)

/-- `_deal_with_pagination(url, method, params, data)`: run the walk
with the scripted session as fuel. -/
def dealWithPagination (st : ReqState) (method : Method) (params : Dict) (data : JVal) :
    Except DOErr (JVal × Dict × ReqState) :=
  paginationLoop method st.responses.length st params data data

/-- What `get_data` returns on success: the bare `True` sentinel of a
204 response, or the decoded (and possibly page-merged) body. -/
inductive GDResult where
  | boolTrue
  | payload (v : JVal)

/-- `params.setdefault("per_page", 200)`, applied only to GET. -/
def withPerPage (method : Method) (params : Dict) : Dict :=
  match method with
  | .GET => if (dget params "per_page").isSome then params else dset params "per_page" (.num 200)
  | _ => params

/-- The error-message extraction of the non-ok branch:
`[data[m] for m in ("id", "message") if m in data][1]` — the values of
whichever of `id` and `message` are present, indexed at 1, so an
`IndexError` unless both are present. -/
def errMsgIndex (d : Dict) : Except DOErr JVal :=
  let vals := (["id", "message"].filterMap (fun m => dget d m))
  match vals.get? 1 with
  | some v => .ok v
  | none => .error .indexError

/-- `requests.Response.ok`: every status below 400. -/
def respOk (r : Response) : Bool := r.status < 400

/-- `get_data(url, type, params)`: default `per_page` for GET, perform
the request, classify 204 / 404 / undecodable body / non-ok, record
the rate-limit headers, and either walk pagination (next link truthy
and no caller-supplied `page`) or return the body as-is.  A `None`
params argument is the empty dict.  Non-mapping bodies on the non-ok
branch raise container-protocol errors in Python, abstracted here as
`typeError`; no claim depends on them. -/
def get_data (st : ReqState) (url : String) (method : Method) (params : Dict) :
    Except DOErr (GDResult × Dict × ReqState) :=
  let params := withPerPage method params
  match performRequest st url method params with
  | .error e => .error e
  | .ok (r, _t, st1) =>
    if r.status = 204 then .ok (.boolTrue, params, st1)
    else if r.status = 404 then .error .notFoundError
    else
      match r.body with
      | .error e => .error (.jsonReadError ("Read failed from DigitalOcean: " ++ e))
      | .ok data =>
        if respOk r then
          let st2 := initRatelimit st1 r.headers
          match chainNext data with
          | .error e => .error e
          | .ok n =>
            if truthy n && (dget params "page").isNone then
              match dealWithPagination st2 method params data with
              | .error e => .error e
              | .ok (d, p1, st3) => .ok (.payload d, p1, st3)
            else .ok (.payload data, params, st2)
        else
          match data with
          | .obj d =>
            match errMsgIndex d with
            | .ok v => .error (.dataReadError v)
            | .error e => .error e
          | _ => .error .typeError

/-- A parsed endpoint URL as `urllib.parse.urlparse` returns it:
scheme, network location and path components (empty when absent; a
bare hostname such as `example.com` parses with empty scheme and
netloc and the whole text in `path`). -/
structure ParsedUrl where
  scheme : String
  netloc : String
  path : String

/-- The endpoint validation of `Requester.__init__`: reject a parse
with a falsy scheme or netloc with `EndPointError`, then append a
trailing slash when the path is empty; on success return the endpoint
the instance keeps. -/
def requesterInitEndpoint (endPoint : String) (parsed : ParsedUrl) :
    Except DOErr String :=
  if parsed.scheme = "" || parsed.netloc = "" then .error .endPointError
  else if parsed.path = "" then .ok (endPoint ++ "/")
  else .ok endPoint

/-- Whether a call returned without raising. -/
def isOkB {ε α : Type} : Except ε α → Bool
  | .ok _ => true
  | .error _ => false

/-- Project the state a successful `get_data` call left behind. -/
def stateOf : Except DOErr (GDResult × Dict × ReqState) → Option ReqState
  | .ok (_, _, st) => some st
  | .error _ => none

/-- Project the parameter mapping a successful `get_data` call left
behind. -/
def paramsOf : Except DOErr (GDResult × Dict × ReqState) → Option Dict
  | .ok (_, p, _) => some p
  | .error _ => none

/-- A fresh state: one token, clean rate-limit fields, a given script. -/
def mkState (ts : List String) (rs : List Response) : ReqState :=
  { tokens := ts, lastUsed := 0, ratelimitLimit := none,
    ratelimitRemaining := none, ratelimitReset := none, responses := rs }

/-- The first `n` successive reads of the `token` property, oldest
first, with the state they leave behind. -/
def tokenReads : Nat → ReqState → List String × ReqState
  | 0, st => ([], st)
  | n + 1, st =>
    let (t, st1) := tokenRead st
    let (ts, st2) := tokenReads n st1
    (t :: ts, st2)

/-! ### Dictionary lemmas -/

theorem dget_dset_self (d : Dict) (k : String) (v : JVal) :
    dget (dset d k v) k = some v := by
  induction d with
  | nil => simp [dget, dset]
  | cons kv rest ih =>
    obtain ⟨k1, v1⟩ := kv
    by_cases h : k1 = k <;> simp [dget, dset, h, ih]

theorem dget_dset_ne (d : Dict) (k k1 : String) (v : JVal) (h : k1 ≠ k) :
    dget (dset d k v) k1 = dget d k1 := by
  have h1 : ¬ k = k1 := fun hh => h hh.symm
  induction d with
  | nil => simp [dget, dset, h1]
  | cons kv rest ih =>
    obtain ⟨k2, v2⟩ := kv
    by_cases h2 : k2 = k
    · subst h2
      simp [dget, dset, h1]
    · by_cases h3 : k2 = k1 <;> simp [dget, dset, h, h1, h2, h3, ih]

theorem dget_dset_isSome (d : Dict) (k k1 : String) (v : JVal)
    (h : (dget d k1).isSome) : (dget (dset d k v) k1).isSome := by
  by_cases h1 : k1 = k
  · subst h1; simp [dget_dset_self]
  · rwa [dget_dset_ne d k k1 v h1]

/-! ### Request lemmas -/

/-- A single `_perform_request` against a non-empty all-truthy token
sequence and a non-exhausted script: it pops the head response,
advances the cursor by two modulo the sequence length, and puts the
token at the advanced cursor in the `Authorization` header. -/
theorem performRequest_eq (st : ReqState) (u : String) (m : Method) (p : Dict)
    (r : Response) (rest : List Response)
    (hne : st.tokens ≠ []) (hok : "" ∉ st.tokens) (hr : st.responses = r :: rest) :
    performRequest st u m p =
      .ok (r, st.tokens.getD ((st.lastUsed + 2) % st.tokens.length) "",
           { st with lastUsed := (st.lastUsed + 2) % st.tokens.length,
                     responses := rest }) := by
  have hlen : 0 < st.tokens.length := List.length_pos.mpr hne
  have hmem : ∀ i, st.tokens.getD (i % st.tokens.length) "" ∈ st.tokens := by
    intro i
    have hi : i % st.tokens.length < st.tokens.length := Nat.mod_lt _ hlen
    rw [List.getD_eq_getElem _ _ hi]
    exact List.getElem_mem hi
  have hemp : st.tokens.isEmpty = false := by
    cases h1 : st.tokens with
    | nil => exact absurd h1 hne
    | cons a l => rfl
  have ht1 : ¬ st.tokens.getD ((st.lastUsed + 1) % st.tokens.length) "" = "" := by
    intro h
    exact hok (h ▸ hmem (st.lastUsed + 1))
  simp only [List.getD_eq_getElem?_getD] at ht1
  simp [performRequest, tokenRead, hemp, ht1, hr]

/-- `_perform_request` mutates only the cursor and the script: the
rate-limit fields and the token sequence come through unchanged. -/
theorem performRequest_frame (st : ReqState) (u : String) (m : Method) (p : Dict)
    (r : Response) (t : String) (st1 : ReqState)
    (h : performRequest st u m p = .ok (r, t, st1)) :
    st1.tokens = st.tokens ∧ st1.ratelimitLimit = st.ratelimitLimit ∧
    st1.ratelimitRemaining = st.ratelimitRemaining ∧
    st1.ratelimitReset = st.ratelimitReset ∧
    st.responses = r :: st1.responses := by
  by_cases hemp : st.tokens.isEmpty
  · simp [performRequest, tokenRead, hemp] at h
  · have hemp1 : st.tokens.isEmpty = false := by
      cases h1 : st.tokens.isEmpty
      · rfl
      · exact absurd h1 hemp
    by_cases ht1 : st.tokens[(st.lastUsed + 1) % st.tokens.length]?.getD "" = ""
    · simp [performRequest, tokenRead, hemp1, ht1] at h
    · cases hrs : st.responses with
      | nil => simp [performRequest, tokenRead, hemp1, ht1, hrs] at h
      | cons r1 rest1 =>
        simp [performRequest, tokenRead, hemp1, ht1, hrs] at h
        obtain ⟨hr1, _ht, hst1⟩ := h
        subst hr1
        rw [← hst1]
        simp [hrs]

/-! ### Token rotation lemmas -/

/-- One read of the `token` property on a non-empty sequence. -/
theorem tokenRead_eq (st : ReqState) (hne : st.tokens ≠ []) :
    tokenRead st =
      (st.tokens.getD ((st.lastUsed + 1) % st.tokens.length) "",
       { st with lastUsed := (st.lastUsed + 1) % st.tokens.length }) := by
  have hemp : st.tokens.isEmpty = false := by
    cases h1 : st.tokens with
    | nil => exact absurd h1 hne
    | cons a l => rfl
  simp [tokenRead, hemp]

/-- The first `k` reads of the `token` property walk the sequence
cyclically starting one past the cursor. -/
theorem tokenReads_fst (k : Nat) (st : ReqState) (hne : st.tokens ≠ []) :
    (tokenReads k st).1 =
      (List.range k).map
        (fun i => st.tokens.getD ((st.lastUsed + 1 + i) % st.tokens.length) "") := by
  induction k generalizing st with
  | zero => simp [tokenReads]
  | succ n ih =>
    rw [tokenReads, tokenRead_eq st hne]
    have hne1 : ({ st with lastUsed := (st.lastUsed + 1) % st.tokens.length }
        : ReqState).tokens ≠ [] := hne
    have hih := ih _ hne1
    simp only at hih
    rw [List.range_succ_eq_map, List.map_cons, List.map_map]
    simp only [hih]
    have htail : List.map
          (fun i => st.tokens.getD
            (((st.lastUsed + 1) % st.tokens.length + 1 + i) % st.tokens.length) "")
          (List.range n)
        = List.map
          ((fun i => st.tokens.getD ((st.lastUsed + 1 + i) % st.tokens.length) "")
            ∘ Nat.succ)
          (List.range n) := by
      apply List.map_congr_left
      intro i _
      simp only [Function.comp_apply]
      have h1 : (st.lastUsed + 1) % st.tokens.length + 1 + i
          = (st.lastUsed + 1) % st.tokens.length + (1 + i) := by omega
      rw [h1, Nat.mod_add_mod]
      have h2 : st.lastUsed + 1 + (1 + i) = st.lastUsed + 1 + i.succ := by omega
      rw [h2]
    rw [htail]

/-! ### Page-merge lemmas -/

/-- Whatever a successful merge step stores, it stores it with `dset`
at its own key. -/
theorem mergeStep_ok_dset (acc a1 : Dict) (k1 : String) (v : JVal)
    (h : mergeStep acc k1 v = .ok a1) :
    ∃ w, a1 = dset acc k1 w := by
  cases hv : asList v with
  | none =>
    simp only [mergeStep, hv, Except.ok.injEq] at h
    exact ⟨v, h.symm⟩
  | some xs =>
    cases hd : dget acc k1 with
    | none =>
      simp only [mergeStep, hv, hd, Except.ok.injEq] at h
      exact ⟨v, h.symm⟩
    | some w =>
      cases hw : asList w with
      | none =>
        simp only [mergeStep, hv, hd, hw] at h
        exact absurd h (by simp)
      | some ys =>
        simp only [mergeStep, hv, hd, hw, Except.ok.injEq] at h
        exact ⟨.list (ys ++ xs), h.symm⟩

/-- A merge step at one key leaves every other key alone. -/
theorem mergeStep_dget_ne (acc a1 : Dict) (k1 k : String) (v : JVal)
    (hne : k ≠ k1) (h : mergeStep acc k1 v = .ok a1) :
    dget a1 k = dget acc k := by
  obtain ⟨w, hw⟩ := mergeStep_ok_dset acc a1 k1 v h
  subst hw
  exact dget_dset_ne _ _ _ _ hne

/-- Merging a page that does not mention a key leaves that key alone. -/
theorem mergeObj_not_mem (page : List (String × JVal)) (acc res : Dict) (k : String)
    (hk : k ∉ page.map Prod.fst) (h : mergeObj acc page = .ok res) :
    dget res k = dget acc k := by
  induction page generalizing acc with
  | nil =>
    simp only [mergeObj, Except.ok.injEq] at h
    subst h
    rfl
  | cons kv rest ih =>
    obtain ⟨k1, v1⟩ := kv
    simp only [List.map_cons, List.mem_cons, not_or] at hk
    obtain ⟨hk1, hkrest⟩ := hk
    unfold mergeObj at h
    cases hs : mergeStep acc k1 v1 with
    | error e => rw [hs] at h; exact absurd h (by simp)
    | ok a1 =>
      rw [hs] at h
      rw [ih a1 hkrest h, mergeStep_dget_ne acc a1 k1 k v1 hk1 hs]

/-- A key list-valued in both the accumulator and the page ends up as
the concatenation, accumulator part first. -/
theorem mergeObj_list_concat (page : List (String × JVal)) (acc res : Dict)
    (k : String) (xs ys : List JVal)
    (hnd : (page.map Prod.fst).Nodup)
    (hp : dget page k = some (.list xs))
    (ha : dget acc k = some (.list ys))
    (h : mergeObj acc page = .ok res) :
    dget res k = some (.list (ys ++ xs)) := by
  induction page generalizing acc with
  | nil => simp [dget] at hp
  | cons kv rest ih =>
    obtain ⟨k1, v1⟩ := kv
    simp only [List.map_cons, List.nodup_cons] at hnd
    obtain ⟨hk1, hndrest⟩ := hnd
    unfold mergeObj at h
    by_cases he : k1 = k
    · subst he
      rw [dget, if_pos rfl] at hp
      have hv1 : v1 = .list xs := by injection hp
      subst hv1
      have hs : mergeStep acc k1 (.list xs) = .ok (dset acc k1 (.list (ys ++ xs))) := by
        simp [mergeStep, asList, ha]
      rw [hs] at h
      rw [mergeObj_not_mem rest _ res k1 hk1 h, dget_dset_self]
    · rw [dget, if_neg he] at hp
      cases hs : mergeStep acc k1 v1 with
      | error e => rw [hs] at h; exact absurd h (by simp)
      | ok a1 =>
        rw [hs] at h
        have ha1 : dget a1 k = some (.list ys) := by
          rw [mergeStep_dget_ne acc a1 k1 k v1 (fun hh => he hh.symm) hs]
          exact ha
        exact ih a1 hndrest hp ha1 h

/-- A key whose page value is not a list is overwritten with the
page's value. -/
theorem mergeObj_overwrite (page : List (String × JVal)) (acc res : Dict)
    (k : String) (v : JVal)
    (hnd : (page.map Prod.fst).Nodup)
    (hp : dget page k = some v)
    (hv : ∀ xs, v ≠ .list xs)
    (h : mergeObj acc page = .ok res) :
    dget res k = some v := by
  induction page generalizing acc with
  | nil => simp [dget] at hp
  | cons kv rest ih =>
    obtain ⟨k1, v1⟩ := kv
    simp only [List.map_cons, List.nodup_cons] at hnd
    obtain ⟨hk1, hndrest⟩ := hnd
    unfold mergeObj at h
    by_cases he : k1 = k
    · subst he
      rw [dget, if_pos rfl] at hp
      have hv1 : v1 = v := by injection hp
      have hs : mergeStep acc k1 v1 = .ok (dset acc k1 v1) := by
        have hl : asList v1 = none := by
          cases v1 with
          | list xs => exact absurd hv1.symm (hv xs)
          | null | bool _ | num _ | str _ | obj _ => rfl
        simp [mergeStep, hl]
      rw [hs] at h
      rw [mergeObj_not_mem rest _ res k1 hk1 h, dget_dset_self, hv1]
    · rw [dget, if_neg he] at hp
      cases hs : mergeStep acc k1 v1 with
      | error e => rw [hs] at h; exact absurd h (by simp)
      | ok a1 => rw [hs] at h; exact ih a1 hndrest hp h

/-! ### Query-merge lemmas -/

/-- The keys `addQsPair` produces: unchanged when the key is already
present, appended otherwise. -/
theorem addQsPair_keys (acc : List (String × List String)) (k v : String) :
    (addQsPair acc k v).map Prod.fst =
      if k ∈ acc.map Prod.fst then acc.map Prod.fst
      else acc.map Prod.fst ++ [k] := by
  induction acc with
  | nil => simp [addQsPair]
  | cons kv rest ih =>
    obtain ⟨k1, vs1⟩ := kv
    by_cases h1 : k1 = k
    · subst h1
      simp [addQsPair]
    · have h2 : ¬ k = k1 := fun hh => h1 hh.symm
      simp only [addQsPair, if_neg h1, List.map_cons, List.mem_cons, h2, false_or]
      rw [ih]
      by_cases h3 : k ∈ rest.map Prod.fst <;> simp [h3]

/-- `addQsPair` keeps the key list duplicate-free. -/
theorem addQsPair_keys_nodup (acc : List (String × List String)) (k v : String)
    (h : (acc.map Prod.fst).Nodup) : ((addQsPair acc k v).map Prod.fst).Nodup := by
  rw [addQsPair_keys]
  by_cases h1 : k ∈ acc.map Prod.fst
  · rwa [if_pos h1]
  · rw [if_neg h1]
    simp [List.nodup_append, h, h1]

/-- One fold step keeps the key list duplicate-free. -/
theorem qsFoldStep_keys_nodup (acc : List (String × List String)) (field : String)
    (h : (acc.map Prod.fst).Nodup) : ((qsFoldStep acc field).map Prod.fst).Nodup := by
  unfold qsFoldStep
  cases hsf : splitFirst field '=' with
  | none => exact h
  | some kv =>
    obtain ⟨k, v⟩ := kv
    by_cases hv : v = ""
    · simp [hv, h]
    · simp only [if_neg hv]
      exact addQsPair_keys_nodup acc k v h

/-- The key list of a parsed query string is duplicate-free. -/
theorem parse_qs_keys_nodup (q : String) : ((parse_qs q).map Prod.fst).Nodup := by
  unfold parse_qs
  generalize (splitAllChar '&' q.data).map (fun f => (⟨f⟩ : String)) = fields
  have hgen : ∀ (fs : List String) (acc : List (String × List String)),
      (acc.map Prod.fst).Nodup → ((fs.foldl qsFoldStep acc).map Prod.fst).Nodup := by
    intro fs
    induction fs with
    | nil => intro acc h; exact h
    | cons f rest ih =>
      intro acc h
      exact ih (qsFoldStep acc f) (qsFoldStep_keys_nodup acc f h)
  exact hgen fields [] (by simp)

/-- Folding `dset` over pairs whose keys avoid `k` leaves `k` alone. -/
theorem foldl_dset_not_mem (l : List (String × List String)) (acc : Dict) (k : String)
    (hk : k ∉ l.map Prod.fst) :
    dget (l.foldl (fun a kv => dset a kv.1 (.list (kv.2.map JVal.str))) acc) k
      = dget acc k := by
  induction l generalizing acc with
  | nil => rfl
  | cons kv rest ih =>
    obtain ⟨k1, vs1⟩ := kv
    simp only [List.map_cons, List.mem_cons, not_or] at hk
    obtain ⟨hk1, hkrest⟩ := hk
    simp only [List.foldl_cons]
    rw [ih _ hkrest, dget_dset_ne _ _ _ _ hk1]

/-- Folding `dset` over a duplicate-free pair list stores each pair's
value, as a list of strings, at its key. -/
theorem foldl_dset_mem (l : List (String × List String)) (acc : Dict) (k : String)
    (vs : List String)
    (hnd : (l.map Prod.fst).Nodup) (hmem : (k, vs) ∈ l) :
    dget (l.foldl (fun a kv => dset a kv.1 (.list (kv.2.map JVal.str))) acc) k
      = some (.list (vs.map JVal.str)) := by
  induction l generalizing acc with
  | nil => simp at hmem
  | cons kv rest ih =>
    obtain ⟨k1, vs1⟩ := kv
    simp only [List.map_cons, List.nodup_cons] at hnd
    obtain ⟨hk1, hndrest⟩ := hnd
    simp only [List.foldl_cons]
    rcases List.mem_cons.mp hmem with heq | hrest
    · obtain ⟨hek, hev⟩ := Prod.mk.injEq .. ▸ heq
      subst hek
      subst hev
      rw [foldl_dset_not_mem rest _ k hk1, dget_dset_self]
    · exact ih _ hndrest hrest

/-- Every key of a parsed query ends up in the merged parameter
mapping with its list-of-strings value. -/
theorem mergeQuery_mem (params : Dict) (q : String) (k : String) (vs : List String)
    (hmem : (k, vs) ∈ parse_qs q) :
    dget (mergeQuery params q) k = some (.list (vs.map JVal.str)) :=
  foldl_dset_mem (parse_qs q) params k vs (parse_qs_keys_nodup q) hmem

/-- Query merging never deletes a parameter key. -/
theorem mergeQuery_isSome (params : Dict) (q : String) (k : String)
    (h : (dget params k).isSome) : (dget (mergeQuery params q) k).isSome := by
  unfold mergeQuery
  generalize parse_qs q = l
  induction l generalizing params with
  | nil => exact h
  | cons kv rest ih =>
    simp only [List.foldl_cons]
    exact ih _ (dget_dset_isSome _ _ _ _ h)

/-! ### Pagination-loop lemmas -/

/-- The walk stops, returning the accumulator, as soon as the newest
page's next link is falsy. -/
theorem paginationLoop_exit (m : Method) (fuel : Nat) (st : ReqState)
    (params : Dict) (data allData : JVal) (n : JVal)
    (hc : chainNext data = .ok n) (htr : truthy n = false) :
    paginationLoop m fuel st params data allData = .ok (allData, params, st) := by
  rw [paginationLoop, hc]
  simp [htr]

/-- One iteration of the walk: follow the next link, merge its query
into the parameters, fetch and decode the next page, merge it into the
accumulator and continue. -/
theorem paginationLoop_step (m : Method) (fuel1 : Nat) (st st' : ReqState)
    (params : Dict) (data : JVal) (accD pageD acc1 : Dict)
    (s u q : String) (r : Response) (t : String)
    (hc : chainNext data = .ok (.str s))
    (hsp : splitFirst s '?' = some (u, q))
    (hpr : performRequest st u m (mergeQuery params q) = .ok (r, t, st'))
    (hb : r.body = .ok (.obj pageD))
    (hm : mergeObj accD pageD = .ok acc1) :
    paginationLoop m (fuel1 + 1) st params data (.obj accD)
      = paginationLoop m fuel1 st' (mergeQuery params q) (.obj pageD) (.obj acc1) := by
  have hs : s ≠ "" := by
    intro he
    subst he
    simp [splitFirst, splitOnceChar, String.data] at hsp
  have htr : truthy (JVal.str s) = true := by simp [truthy, hs]
  rw [paginationLoop, hc]
  simp only [htr, if_true, hsp, hpr, hb, hm]

/-- A later page whose body does not decode makes the walk raise the
decoder's `ValueError` unchanged. -/
theorem paginationLoop_json_abort (m : Method) (fuel1 : Nat) (st st' : ReqState)
    (params : Dict) (data allData : JVal)
    (s u q : String) (r : Response) (t : String) (e : String)
    (hc : chainNext data = .ok (.str s))
    (hsp : splitFirst s '?' = some (u, q))
    (hpr : performRequest st u m (mergeQuery params q) = .ok (r, t, st'))
    (hb : r.body = .error e) :
    paginationLoop m (fuel1 + 1) st params data allData
      = .error (.valueError e) := by
  have hs : s ≠ "" := by
    intro he
    subst he
    simp [splitFirst, splitOnceChar, String.data] at hsp
  have htr : truthy (JVal.str s) = true := by simp [truthy, hs]
  rw [paginationLoop, hc]
  simp only [htr, if_true, hsp, hpr, hb]

/-- A successful walk never touches the rate-limit fields or the token
sequence, and never deletes a parameter key. -/
theorem paginationLoop_invariant (m : Method) (fuel : Nat) :
    ∀ (st : ReqState) (params : Dict) (data allData v : JVal) (p1 : Dict)
      (st1 : ReqState),
    paginationLoop m fuel st params data allData = .ok (v, p1, st1) →
    st1.ratelimitLimit = st.ratelimitLimit ∧
    st1.ratelimitRemaining = st.ratelimitRemaining ∧
    st1.ratelimitReset = st.ratelimitReset ∧
    st1.tokens = st.tokens ∧
    (∀ k, (dget params k).isSome → (dget p1 k).isSome) := by
  induction fuel with
  | zero =>
    intro st params data allData v p1 st1 h
    rw [paginationLoop] at h
    cases hc : chainNext data with
    | error e => simp [hc] at h
    | ok n =>
      cases htr : truthy n with
      | false =>
        simp only [hc, htr, Bool.false_eq_true, if_false, Except.ok.injEq,
          Prod.mk.injEq] at h
        obtain ⟨hv, hp, hst⟩ := h
        subst hp
        subst hst
        exact ⟨rfl, rfl, rfl, rfl, fun k hk => hk⟩
      | true =>
        cases n with
        | str s =>
          cases hsp : splitFirst s '?' with
          | none => simp [hc, htr, hsp] at h
          | some uq =>
            obtain ⟨u, q⟩ := uq
            simp [hc, htr, hsp] at h
        | null => simp [truthy] at htr
        | bool b => simp [hc, htr] at h
        | num i => simp [hc, htr] at h
        | list xs => simp [hc, htr] at h
        | obj fs => simp [hc, htr] at h
  | succ fuel1 ih =>
    intro st params data allData v p1 st1 h
    rw [paginationLoop] at h
    cases hc : chainNext data with
    | error e => simp [hc] at h
    | ok n =>
      cases htr : truthy n with
      | false =>
        simp only [hc, htr, Bool.false_eq_true, if_false, Except.ok.injEq,
          Prod.mk.injEq] at h
        obtain ⟨hv, hp, hst⟩ := h
        subst hp
        subst hst
        exact ⟨rfl, rfl, rfl, rfl, fun k hk => hk⟩
      | true =>
        cases n with
        | null => simp [truthy] at htr
        | bool b => simp [hc, htr] at h
        | num i => simp [hc, htr] at h
        | list xs => simp [hc, htr] at h
        | obj fs => simp [hc, htr] at h
        | str s =>
          cases hsp : splitFirst s '?' with
          | none => simp [hc, htr, hsp] at h
          | some uq =>
            obtain ⟨u, q⟩ := uq
            simp only [hc, htr, if_true, hsp] at h
            cases hpr : performRequest st u m (mergeQuery params q) with
            | error e => simp [hpr] at h
            | ok rts =>
              obtain ⟨r, t, st'⟩ := rts
              simp only [hpr] at h
              cases hb : r.body with
              | error e => simp [hb] at h
              | ok d =>
                simp only [hb] at h
                cases d with
                | null => simp at h
                | bool b => simp at h
                | num i => simp at h
                | str s1 => simp at h
                | list xs => simp at h
                | obj pageD =>
                  cases allData with
                  | null => simp at h
                  | bool b => simp at h
                  | num i => simp at h
                  | str s1 => simp at h
                  | list xs => simp at h
                  | obj accD =>
                    cases hm : mergeObj accD pageD with
                    | error e => simp [hm] at h
                    | ok acc1 =>
                      simp only [hm] at h
                      obtain ⟨f1, f2, f3, f4, f5⟩ :=
                        ih st' (mergeQuery params q) (.obj pageD) (.obj acc1) v p1 st1 h
                      obtain ⟨g1, g2, g3, g4, _⟩ :=
                        performRequest_frame st u m (mergeQuery params q) r t st' hpr
                      refine ⟨f1.trans g2, f2.trans g3, f3.trans g4, f4.trans g1, ?_⟩
                      intro k hk
                      exact f5 k (mergeQuery_isSome params q k hk)

/-- Replace a response's status by 200, keeping body and headers. -/
def stripResp (r : Response) : Response := { r with status := 200 }

/-- Replace every scripted status by 200. -/
def stripSt (st : ReqState) : ReqState :=
  { st with responses := st.responses.map stripResp }

/-- `_perform_request` commutes with erasing scripted statuses. -/
theorem performRequest_strip (st : ReqState) (u : String) (m : Method) (p : Dict) :
    performRequest (stripSt st) u m p =
      (performRequest st u m p).map
        (fun rts => (stripResp rts.1, rts.2.1, stripSt rts.2.2)) := by
  by_cases hemp : st.tokens.isEmpty
  · simp [performRequest, tokenRead, stripSt, hemp, Except.map]
  · have hemp1 : st.tokens.isEmpty = false := by
      cases h1 : st.tokens.isEmpty
      · rfl
      · exact absurd h1 hemp
    by_cases ht1 : st.tokens[(st.lastUsed + 1) % st.tokens.length]?.getD "" = ""
    · simp [performRequest, tokenRead, stripSt, hemp1, ht1, Except.map]
    · cases hrs : st.responses with
      | nil => simp [performRequest, tokenRead, stripSt, hemp1, ht1, hrs, Except.map]
      | cons r1 rest1 =>
        simp [performRequest, tokenRead, stripSt, hemp1, ht1, hrs, Except.map]

/-- The pagination walk never reads a status code: erasing every
scripted status to 200 leaves its outcome unchanged (up to the same
erasure inside the returned state). -/
theorem paginationLoop_strip (m : Method) (fuel : Nat) :
    ∀ (st : ReqState) (params : Dict) (data allData : JVal),
    paginationLoop m fuel (stripSt st) params data allData =
      (paginationLoop m fuel st params data allData).map
        (fun x => (x.1, x.2.1, stripSt x.2.2)) := by
  induction fuel with
  | zero =>
    intro st params data allData
    rw [paginationLoop, paginationLoop]
    cases hc : chainNext data with
    | error e => simp [Except.map]
    | ok n =>
      cases htr : truthy n with
      | false => simp [htr, Except.map]
      | true =>
        cases n with
        | null => simp [truthy] at htr
        | bool b => simp [htr, Except.map]
        | num i => simp [htr, Except.map]
        | list xs => simp [htr, Except.map]
        | obj fs => simp [htr, Except.map]
        | str s =>
          cases hsp : splitFirst s '?' with
          | none => simp [htr, hsp, Except.map]
          | some uq =>
            obtain ⟨u, q⟩ := uq
            simp [htr, hsp, Except.map]
  | succ fuel1 ih =>
    intro st params data allData
    rw [paginationLoop, paginationLoop]
    cases hc : chainNext data with
    | error e => simp [Except.map]
    | ok n =>
      cases htr : truthy n with
      | false => simp [htr, Except.map]
      | true =>
        cases n with
        | null => simp [truthy] at htr
        | bool b => simp [htr, Except.map]
        | num i => simp [htr, Except.map]
        | list xs => simp [htr, Except.map]
        | obj fs => simp [htr, Except.map]
        | str s =>
          cases hsp : splitFirst s '?' with
          | none => simp [htr, hsp, Except.map]
          | some uq =>
            obtain ⟨u, q⟩ := uq
            simp only [htr, if_true, hsp]
            rw [performRequest_strip]
            cases hpr : performRequest st u m (mergeQuery params q) with
            | error e => simp [Except.map]
            | ok rts =>
              obtain ⟨r, t, st'⟩ := rts
              simp only [Except.map]
              have hbody : (stripResp r).body = r.body := rfl
              cases hb : r.body with
              | error e => simp [hbody, hb, Except.map]
              | ok d =>
                simp only [hbody, hb]
                cases d with
                | null => simp [Except.map]
                | bool b => simp [Except.map]
                | num i => simp [Except.map]
                | str s1 => simp [Except.map]
                | list xs => simp [Except.map]
                | obj pageD =>
                  cases allData with
                  | null => simp [Except.map]
                  | bool b => simp [Except.map]
                  | num i => simp [Except.map]
                  | str s1 => simp [Except.map]
                  | list xs => simp [Except.map]
                  | obj accD =>
                    cases hm : mergeObj accD pageD with
                    | error e => simp [hm, Except.map]
                    | ok acc1 =>
                      simp only [hm]
                      exact ih st' (mergeQuery params q) (.obj pageD) (.obj acc1)

/-! ### get_data characterization lemmas -/

/-- A `get_data` call whose first response is ok (below 400, not 204,
not 404) with a decodable body: the rate-limit fields are recorded
from that response and the pagination decision is taken on its body's
next link and the caller's `page` parameter. -/
theorem get_data_ok_eq (st : ReqState) (u : String) (m : Method) (params : Dict)
    (r : Response) (rest : List Response) (data n : JVal)
    (hne : st.tokens ≠ []) (hok : "" ∉ st.tokens) (hr : st.responses = r :: rest)
    (h204 : r.status ≠ 204) (h404 : r.status ≠ 404) (hb : r.body = .ok data)
    (hrok : respOk r = true) (hc : chainNext data = .ok n) :
    get_data st u m params =
      (if truthy n && (dget (withPerPage m params) "page").isNone then
        match dealWithPagination
            (initRatelimit
              { st with lastUsed := (st.lastUsed + 2) % st.tokens.length,
                        responses := rest } r.headers)
            m (withPerPage m params) data with
        | .error e => .error e
        | .ok (d, p1, st3) => .ok (.payload d, p1, st3)
      else
        .ok (.payload data, withPerPage m params,
             initRatelimit
               { st with lastUsed := (st.lastUsed + 2) % st.tokens.length,
                         responses := rest } r.headers)) := by
  simp only [get_data]
  rw [performRequest_eq st u m (withPerPage m params) r rest hne hok hr]
  simp only [if_neg h204, if_neg h404, hb, hrok, if_true, hc]

/-- A `get_data` call whose first response is not ok (status at least
400, not 404) with a decodable mapping body lands in the
`DataReadError` extraction. -/
theorem get_data_notok_eq (st : ReqState) (u : String) (m : Method) (params : Dict)
    (r : Response) (rest : List Response) (d : Dict)
    (hne : st.tokens ≠ []) (hok : "" ∉ st.tokens) (hr : st.responses = r :: rest)
    (h204 : r.status ≠ 204) (h404 : r.status ≠ 404) (hb : r.body = .ok (.obj d))
    (hrok : respOk r = false) :
    get_data st u m params =
      (match errMsgIndex d with
       | .ok v => .error (.dataReadError v)
       | .error e => .error e) := by
  simp only [get_data]
  rw [performRequest_eq st u m (withPerPage m params) r rest hne hok hr]
  simp only [if_neg h204, if_neg h404, hb, hrok, Bool.false_eq_true, if_false]

/-- A 204 first response short-circuits `get_data`: the `True` sentinel
comes back with the rate-limit fields untouched, the body never
decoded, and only the one response consumed. -/
theorem get_data_204_eq (st : ReqState) (u : String) (m : Method) (params : Dict)
    (r : Response) (rest : List Response)
    (hne : st.tokens ≠ []) (hok : "" ∉ st.tokens) (hr : st.responses = r :: rest)
    (h204 : r.status = 204) :
    get_data st u m params =
      .ok (.boolTrue, withPerPage m params,
           { st with lastUsed := (st.lastUsed + 2) % st.tokens.length,
                     responses := rest }) := by
  simp only [get_data]
  rw [performRequest_eq st u m (withPerPage m params) r rest hne hok hr]
  simp [h204]

end DO


namespace DO

/-! ### Claim theorems -/

/-- C3: every `_perform_request` call reads the `token` property twice
(emptiness check, then `Authorization` header), so it advances the
round-robin cursor by two modulo the sequence length; for a two-token
sequence with an even cursor — as left by the setter and by every
previous request — the `Authorization` header carries the first token. -/
theorem C3_two_reads_per_request :
    ∀ (st : ReqState) (u : String) (m : Method) (p : Dict) (r : Response)
      (rest : List Response),
    st.tokens ≠ [] → "" ∉ st.tokens → st.responses = r :: rest →
    (∃ a, performRequest st u m p =
       .ok (r, a, { st with lastUsed := (st.lastUsed + 2) % st.tokens.length,
                            responses := rest })) ∧
    (∀ t1 t2, st.tokens = [t1, t2] → st.lastUsed % 2 = 0 →
       performRequest st u m p =
         .ok (r, t1, { st with lastUsed := 0, responses := rest })) := by
  intro st u m p r rest hne hok hr
  refine ⟨⟨_, performRequest_eq st u m p r rest hne hok hr⟩, ?_⟩
  intro t1 t2 hts hpar
  have heq := performRequest_eq st u m p r rest hne hok hr
  have hlen : st.tokens.length = 2 := by rw [hts]; rfl
  have hmod : (st.lastUsed + 2) % st.tokens.length = 0 := by
    rw [hlen]
    omega
  rw [heq, hmod, hts]
  rfl

/-- C3 witness: two non-empty tokens, cursor zero, one scripted
response; the request returns with the first token in the header. -/
theorem C3_witness :
    performRequest (mkState ["a", "b"] [⟨200, .ok .null, []⟩]) "d" .GET [] =
      .ok (⟨200, .ok .null, []⟩, "a",
           { mkState ["a", "b"] [⟨200, .ok .null, []⟩] with
               lastUsed := 0, responses := [] }) :=
  (C3_two_reads_per_request (mkState ["a", "b"] [⟨200, .ok .null, []⟩])
      "d" .GET [] ⟨200, .ok .null, []⟩ []
      (by decide) (by decide) rfl).2 "a" "b" rfl rfl

/-- C4 counterexample: after assigning the token sequence
`["a", "b"]` (cursor reset to zero), the first two reads of the
`token` property return `["b", "a"]`, not the insertion order
`["a", "b"]` starting from the first token that the claim states. -/
theorem C4_counterexample :
    (tokenReads 2 (tokenSet (mkState [] []) ["a", "b"])).1 = ["b", "a"] ∧
    (tokenReads 2 (tokenSet (mkState [] []) ["a", "b"])).1 ≠ ["a", "b"] := by
  exact ⟨rfl, by decide⟩

/-- C4 amended: after the setter stores a non-empty sequence of `n`
tokens and resets the cursor, the first `n` reads return every token
exactly once before any repeats, in insertion order rotated by one:
second token first, then the rest, ending with the first token. -/
theorem C4_amended (st : ReqState) (ts : List String) (hne : ts ≠ []) :
    (tokenReads ts.length (tokenSet st ts)).1 = ts.rotate 1 := by
  have hne1 : (tokenSet st ts).tokens ≠ [] := hne
  rw [tokenReads_fst ts.length (tokenSet st ts) hne1]
  simp only [tokenSet]
  have hpos : 0 < ts.length := List.length_pos.mpr hne
  apply List.ext_getElem
  · simp
  · intro i h1 h2
    simp only [List.getElem_map, List.getElem_range]
    rw [List.getElem_rotate]
    have he : 0 + 1 + i = i + 1 := by omega
    rw [he]
    have hb : (i + 1) % ts.length < ts.length := Nat.mod_lt _ hpos
    rw [List.getD_eq_getElem ts "" hb]

/-- C4 witness: three tokens give reads `["y", "z", "x"]`. -/
theorem C4_witness :
    (tokenReads 3 (tokenSet (mkState [] []) ["x", "y", "z"])).1 = ["y", "z", "x"] :=
  (C4_amended (mkState [] []) ["x", "y", "z"] (by decide)).trans rfl

/-- C7: a 204 first response makes `get_data` return the `True`
sentinel at once: the body is never decoded (it may even be
undecodable), the rate-limit fields keep their previous values, and
exactly one response is consumed, so the pagination walk is never
entered. -/
theorem C7_204_short_circuit (st : ReqState) (u : String) (m : Method)
    (params : Dict) (r : Response) (rest : List Response)
    (hne : st.tokens ≠ []) (hok : "" ∉ st.tokens)
    (hr : st.responses = r :: rest) (h204 : r.status = 204) :
    get_data st u m params =
      .ok (.boolTrue, withPerPage m params,
           { st with lastUsed := (st.lastUsed + 2) % st.tokens.length,
                     responses := rest }) :=
  get_data_204_eq st u m params r rest hne hok hr h204

/-- C7 witness: a 204 response with an undecodable body and a next
link in scope still returns `True` with rate-limit state untouched. -/
theorem C7_witness :
    get_data (mkState ["t"] [⟨204, .error "boom", [("Ratelimit-Limit", "5000")]⟩])
        "d" .GET [] =
      .ok (.boolTrue, [("per_page", .num 200)],
           mkState ["t"] []) :=
  (C7_204_short_circuit (mkState ["t"] [⟨204, .error "boom", [("Ratelimit-Limit", "5000")]⟩])
      "d" .GET [] ⟨204, .error "boom", [("Ratelimit-Limit", "5000")]⟩ []
      (by decide) (by decide) rfl rfl).trans rfl

/-- C9: a constructor argument whose parse lacks a scheme or a network
location is rejected with `EndPointError` before any request state
exists. -/
theorem C9_endpoint_validation (parsed : ParsedUrl) (endPoint : String)
    (h : parsed.scheme = "" ∨ parsed.netloc = "") :
    requesterInitEndpoint endPoint parsed = .error .endPointError := by
  unfold requesterInitEndpoint
  rcases h with h | h <;> simp [h]

/-- C9 witness: a bare hostname parses with empty scheme and netloc
and the whole text in the path, and is rejected. -/
theorem C9_witness :
    requesterInitEndpoint "example.com" ⟨"", "", "example.com"⟩ =
      .error .endPointError :=
  C9_endpoint_validation ⟨"", "", "example.com"⟩ "example.com" (Or.inl rfl)

end DO

namespace DO

/-- C8: when the caller's parameter mapping carries a `page` key, a
successful GET returns the first page's decoded body as-is — even when
that body holds a `links.pages.next` URL — and consumes exactly one
response, so the pagination walk is never entered. -/
theorem C8_explicit_page_suppresses_pagination
    (st : ReqState) (u : String) (params : Dict) (r : Response)
    (rest : List Response) (data n : JVal) (v : JVal)
    (hne : st.tokens ≠ []) (hok : "" ∉ st.tokens) (hr : st.responses = r :: rest)
    (h204 : r.status ≠ 204) (h404 : r.status ≠ 404) (hb : r.body = .ok data)
    (hrok : respOk r = true) (hc : chainNext data = .ok n)
    (hpg : dget params "page" = some v) :
    get_data st u .GET params =
      .ok (.payload data, withPerPage .GET params,
           initRatelimit
             { st with lastUsed := (st.lastUsed + 2) % st.tokens.length,
                       responses := rest } r.headers) := by
  have hpage : dget (withPerPage .GET params) "page" = some v := by
    unfold withPerPage
    by_cases hpp : (dget params "per_page").isSome
    · simp only [hpp, if_true]
      exact hpg
    · simp only [hpp, Bool.false_eq_true, if_false]
      rw [dget_dset_ne params "per_page" "page" (.num 200) (by decide)]
      exact hpg
  rw [get_data_ok_eq st u .GET params r rest data n hne hok hr h204 h404 hb hrok hc]
  simp [hpage]

/-- C8 witness: a body with a live next link plus `page=3` in the
params comes back unmerged after a single response. -/
theorem C8_witness :
    get_data
        (mkState ["t"]
          [⟨200,
            .ok (.obj [("k", .list [.str "a"]),
                       ("links", .obj [("pages", .obj [("next", .str "u?page=4")])])]),
            []⟩])
        "d" .GET [("page", .num 3)] =
      .ok (.payload (.obj [("k", .list [.str "a"]),
                           ("links", .obj [("pages", .obj [("next", .str "u?page=4")])])]),
           [("page", .num 3), ("per_page", .num 200)],
           mkState ["t"] []) :=
  (C8_explicit_page_suppresses_pagination
      (mkState ["t"]
        [⟨200,
          .ok (.obj [("k", .list [.str "a"]),
                     ("links", .obj [("pages", .obj [("next", .str "u?page=4")])])]),
          []⟩])
      "d" [("page", .num 3)]
      ⟨200,
        .ok (.obj [("k", .list [.str "a"]),
                   ("links", .obj [("pages", .obj [("next", .str "u?page=4")])])]),
        []⟩
      []
      (.obj [("k", .list [.str "a"]),
             ("links", .obj [("pages", .obj [("next", .str "u?page=4")])])])
      (.str "u?page=4") (.num 3)
      (by decide) (by decide) rfl (by decide) (by decide) rfl rfl rfl rfl).trans rfl

end DO

namespace DO

/-- C1 counterexample: a 400 response whose mapping body has a
`message` field but no `id` field.  The claim says `get_data` raises
`DataReadError` with that message; the source's
`[data[m] for m in ("id", "message") if m in data][1]` builds the
one-element list `[data["message"]]` and indexing it at 1 raises an
uncaught `IndexError` instead. -/
theorem C1_counterexample :
    get_data (mkState ["t"] [⟨400, .ok (.obj [("message", .str "oops")]), []⟩])
        "d" .GET [] =
      .error .indexError := rfl

/-- C1 amended: for a response with status at least 400 (requests'
`ok` is `status < 400`, so 3xx responses take the success path) other
than 404, with a decodable mapping body, `get_data` raises
`DataReadError` carrying the body's `message` value only when both
`id` and `message` are present; when either is missing the list
comprehension indexed at 1 raises `IndexError` instead, and no
fallback to `id` ever happens. -/
theorem C1_amended (st : ReqState) (u : String) (m : Method) (params : Dict)
    (r : Response) (rest : List Response) (d : Dict)
    (hne : st.tokens ≠ []) (hok : "" ∉ st.tokens) (hr : st.responses = r :: rest)
    (h400 : 400 ≤ r.status) (h404 : r.status ≠ 404) (hb : r.body = .ok (.obj d)) :
    (∀ vi vm, dget d "id" = some vi → dget d "message" = some vm →
       get_data st u m params = .error (.dataReadError vm)) ∧
    ((dget d "id") = none ∨ (dget d "message") = none →
       get_data st u m params = .error .indexError) := by
  have h204 : r.status ≠ 204 := by omega
  have hrok : respOk r = false := by
    simp only [respOk, decide_eq_false_iff_not]
    omega
  have heq := get_data_notok_eq st u m params r rest d hne hok hr h204 h404 hb hrok
  constructor
  · intro vi vm hi hm
    rw [heq]
    simp [errMsgIndex, hi, hm]
  · intro hmiss
    rw [heq]
    rcases hmiss with hi | hm
    · cases hm : dget d "message" with
      | none => simp [errMsgIndex, hi, hm]
      | some vm => simp [errMsgIndex, hi, hm]
    · cases hi : dget d "id" with
      | none => simp [errMsgIndex, hi, hm]
      | some vi => simp [errMsgIndex, hi, hm]

/-- C1 witness: with both `id` and `message` present on a 403
response, `DataReadError` carries the `message` value. -/
theorem C1_witness :
    get_data
        (mkState ["t"]
          [⟨403, .ok (.obj [("id", .str "forbidden"), ("message", .str "no")]), []⟩])
        "d" .GET [] =
      .error (.dataReadError (.str "no")) :=
  (C1_amended
      (mkState ["t"]
        [⟨403, .ok (.obj [("id", .str "forbidden"), ("message", .str "no")]), []⟩])
      "d" .GET []
      ⟨403, .ok (.obj [("id", .str "forbidden"), ("message", .str "no")]), []⟩
      [] [("id", .str "forbidden"), ("message", .str "no")]
      (by decide) (by decide) rfl (by decide) (by decide) rfl).1
    (.str "forbidden") (.str "no") rfl rfl

end DO

namespace DO

/-- C2 counterexample page 1: carries a next link. -/
def pageC2a : JVal :=
  .obj [("things", .list [.str "a"]),
        ("links", .obj [("pages", .obj [("next", .str "u?page=2")])])]

/-- C2 counterexample page 2: no next link. -/
def pageC2b : JVal := .obj [("things", .list [.str "b"])]

/-- C2 counterexample session: page 2 answers with status 404. -/
def stC2 : ReqState :=
  mkState ["t"] [⟨200, .ok pageC2a, []⟩, ⟨404, .ok pageC2b, []⟩]

/-- C2 counterexample: the second page of the walk has status 404, yet
`get_data` raises no `NotFoundError`: the later page is fetched with
`.json()` alone, its body is merged and the aggregate is returned. -/
theorem C2_counterexample :
    get_data stC2 "d" .GET [] =
      .ok (.payload
             (.obj [("things", .list [.str "a", .str "b"]),
                    ("links", .obj [("pages", .obj [("next", .str "u?page=2")])])]),
           [("per_page", .num 200), ("page", .list [.str "2"])],
           mkState ["t"] []) := rfl

/-- C2 amended: later pages of a walk bypass the error classification
entirely.  First, the walk never reads a status code: erasing every
scripted status to 200 leaves its outcome unchanged, so a 404 or
non-2xx later page is merged like a 200 (no `NotFoundError`, no
`DataReadError`).  Second, a later page whose body does not decode
aborts the whole walk — no partial aggregate is returned — but with
the decoder's raw `ValueError`, not `JSONReadError`. -/
theorem C2_amended :
    (∀ (st : ReqState) (m : Method) (params : Dict) (data : JVal),
       dealWithPagination (stripSt st) m params data =
         (dealWithPagination st m params data).map
           (fun x => (x.1, x.2.1, stripSt x.2.2))) ∧
    (∀ (st : ReqState) (m : Method) (params : Dict) (data : JVal)
       (s u q e : String) (r : Response) (rest : List Response),
       st.tokens ≠ [] → "" ∉ st.tokens → st.responses = r :: rest →
       chainNext data = .ok (.str s) → splitFirst s '?' = some (u, q) →
       r.body = .error e →
       dealWithPagination st m params data = .error (.valueError e)) := by
  constructor
  · intro st m params data
    have hlen : (stripSt st).responses.length = st.responses.length := by
      simp [stripSt]
    unfold dealWithPagination
    rw [hlen]
    exact paginationLoop_strip m st.responses.length st params data data
  · intro st m params data s u q e r rest hne hok hr hc hsp hb
    have hlen : st.responses.length = rest.length + 1 := by rw [hr]; rfl
    unfold dealWithPagination
    rw [hlen]
    exact paginationLoop_json_abort m rest.length st _ params data data s u q r _ e
      hc hsp (performRequest_eq st u m (mergeQuery params q) r rest hne hok hr) hb

/-- C2 witness: a walk whose next page's body does not decode returns
the raw decode error. -/
theorem C2_witness :
    dealWithPagination
        (mkState ["t"] [⟨500, .error "bad json", []⟩]) .GET []
        (.obj [("links", .obj [("pages", .obj [("next", .str "u?page=2")])])]) =
      .error (.valueError "bad json") :=
  C2_amended.2 (mkState ["t"] [⟨500, .error "bad json", []⟩]) .GET []
    (.obj [("links", .obj [("pages", .obj [("next", .str "u?page=2")])])])
    "u?page=2" "u" "page=2" "bad json" ⟨500, .error "bad json", []⟩ []
    (by decide) (by decide) rfl rfl rfl rfl

end DO

namespace DO

/-- Inverting a successful `get_data` call: a 204 first response
leaves the rate-limit fields untouched and returns the defaulted
parameters; any other first response that succeeds records exactly
that first response's rate-limit headers — the walk, if entered, never
updates them — and only ever grows the parameter mapping. -/
theorem get_data_ok_inv (st : ReqState) (u : String) (m : Method) (params : Dict)
    (out : GDResult × Dict × ReqState) (r : Response) (rest : List Response)
    (hr : st.responses = r :: rest)
    (h : get_data st u m params = .ok out) :
    (r.status = 204 ∧
       out.2.2.ratelimitLimit = st.ratelimitLimit ∧
       out.2.2.ratelimitRemaining = st.ratelimitRemaining ∧
       out.2.2.ratelimitReset = st.ratelimitReset ∧
       out.2.1 = withPerPage m params) ∨
    (r.status ≠ 204 ∧
       out.2.2.ratelimitLimit = hget r.headers "Ratelimit-Limit" ∧
       out.2.2.ratelimitRemaining = hget r.headers "Ratelimit-Remaining" ∧
       out.2.2.ratelimitReset = hget r.headers "Ratelimit-Reset" ∧
       (∀ k, (dget (withPerPage m params) k).isSome →
          (dget out.2.1 k).isSome)) := by
  simp only [get_data] at h
  cases hpr : performRequest st u m (withPerPage m params) with
  | error e => simp [hpr] at h
  | ok rts =>
    obtain ⟨r1, t, st1⟩ := rts
    obtain ⟨g1, g2, g3, g4, g5⟩ :=
      performRequest_frame st u m (withPerPage m params) r1 t st1 hpr
    rw [hr] at g5
    injection g5 with hra hrb
    subst hra
    simp only [hpr] at h
    by_cases h204 : r.status = 204
    · left
      simp only [if_pos h204, Except.ok.injEq] at h
      subst h
      exact ⟨h204, g2, g3, g4, rfl⟩
    · right
      simp only [if_neg h204] at h
      by_cases h404 : r.status = 404
      · simp [h404] at h
      · simp only [if_neg h404] at h
        cases hb : r.body with
        | error e => simp [hb] at h
        | ok data =>
          simp only [hb] at h
          cases hrok : respOk r with
          | false =>
            simp only [hrok, Bool.false_eq_true, if_false] at h
            cases data with
            | obj d =>
              cases hemi : errMsgIndex d with
              | ok v => simp [hemi] at h
              | error e => simp [hemi] at h
            | null => simp at h
            | bool b => simp at h
            | num i => simp at h
            | str s => simp at h
            | list xs => simp at h
          | true =>
            simp only [hrok, if_true] at h
            cases hc : chainNext data with
            | error e => simp [hc] at h
            | ok n =>
              simp only [hc] at h
              by_cases hcond :
                  (truthy n && (dget (withPerPage m params) "page").isNone) = true
              · rw [if_pos hcond] at h
                cases hdp : dealWithPagination (initRatelimit st1 r.headers) m
                    (withPerPage m params) data with
                | error e => simp [hdp] at h
                | ok dps =>
                  obtain ⟨d1, p1, st3⟩ := dps
                  simp only [hdp, Except.ok.injEq] at h
                  subst h
                  unfold dealWithPagination at hdp
                  obtain ⟨f1, f2, f3, f4, f5⟩ :=
                    paginationLoop_invariant m
                      (initRatelimit st1 r.headers).responses.length
                      (initRatelimit st1 r.headers) (withPerPage m params)
                      data data d1 p1 st3 hdp
                  refine ⟨h204, ?_, ?_, ?_, f5⟩
                  · rw [f1]; rfl
                  · rw [f2]; rfl
                  · rw [f3]; rfl
              · rw [if_neg hcond] at h
                simp only [Except.ok.injEq] at h
                subst h
                exact ⟨h204, rfl, rfl, rfl, fun k hk => hk⟩

end DO

namespace DO

/-- C5 fixture, page 1: next link, `Ratelimit-Remaining: 100`. -/
def rC5a : Response :=
  ⟨200,
   .ok (.obj [("k", .list [.str "a"]),
              ("links", .obj [("pages", .obj [("next", .str "u?page=2")])])]),
   [("Ratelimit-Remaining", "100")]⟩

/-- C5 fixture, page 2: final page, `Ratelimit-Remaining: 99`. -/
def rC5b : Response :=
  ⟨200, .ok (.obj [("k", .list [.str "b"])]), [("Ratelimit-Remaining", "99")]⟩

/-- C5 fixture session. -/
def stC5 : ReqState := mkState ["t"] [rC5a, rC5b]

/-- C5 counterexample: after a two-page walk the stored
`Ratelimit-Remaining` is page 1's `100`, not the most recent
response's `99` — pages fetched inside the walk never update the
rate-limit fields. -/
theorem C5_counterexample :
    (stateOf (get_data stC5 "d" .GET [])).map ReqState.ratelimitRemaining
        = some (some "100") ∧
    (stateOf (get_data stC5 "d" .GET [])).map ReqState.ratelimitRemaining
        ≠ some (some "99") :=
  ⟨rfl, by decide⟩

/-- C5 amended: a successful `get_data` call updates the rate-limit
fields from its first response's headers only — a 204 first response
leaves them untouched, and pages fetched during the pagination walk
never touch them, so the stored values reflect the first response of
the most recent `get_data` call, not the most recent response. -/
theorem C5_amended (st : ReqState) (u : String) (m : Method) (params : Dict)
    (out : GDResult × Dict × ReqState) (r : Response) (rest : List Response)
    (hr : st.responses = r :: rest)
    (h : get_data st u m params = .ok out) :
    (r.status = 204 →
       out.2.2.ratelimitLimit = st.ratelimitLimit ∧
       out.2.2.ratelimitRemaining = st.ratelimitRemaining ∧
       out.2.2.ratelimitReset = st.ratelimitReset) ∧
    (r.status ≠ 204 →
       out.2.2.ratelimitLimit = hget r.headers "Ratelimit-Limit" ∧
       out.2.2.ratelimitRemaining = hget r.headers "Ratelimit-Remaining" ∧
       out.2.2.ratelimitReset = hget r.headers "Ratelimit-Reset") := by
  rcases get_data_ok_inv st u m params out r rest hr h with
    ⟨h204, h1, h2, h3, _⟩ | ⟨h204, h1, h2, h3, _⟩
  · exact ⟨fun _ => ⟨h1, h2, h3⟩, fun hn => absurd h204 hn⟩
  · exact ⟨fun hy => absurd hy h204, fun _ => ⟨h1, h2, h3⟩⟩

/-- C5 result fixture: what the two-page walk returns. -/
def outC5 : GDResult × Dict × ReqState :=
  (.payload (.obj [("k", .list [.str "a", .str "b"]),
                   ("links", .obj [("pages", .obj [("next", .str "u?page=2")])])]),
   [("per_page", .num 200), ("page", .list [.str "2"])],
   { mkState ["t"] [] with ratelimitRemaining := some "100" })

/-- C5 witness: the two-page session, with the non-204 branch of the
amended theorem instantiated. -/
theorem C5_witness :
    outC5.2.2.ratelimitLimit = hget rC5a.headers "Ratelimit-Limit" ∧
    outC5.2.2.ratelimitRemaining = hget rC5a.headers "Ratelimit-Remaining" ∧
    outC5.2.2.ratelimitReset = hget rC5a.headers "Ratelimit-Reset" :=
  (C5_amended stC5 "d" .GET [] outC5 rC5a [rC5b] rfl rfl).2 (by decide)

/-- C10: `get_data` mutates the caller's parameter mapping.  A
successful GET whose params lack `per_page` hands back a mapping that
now contains `per_page` (inserted as 200, possibly overwritten by a
later page's query), hence differs from the input; and the walk's
query merge writes every parsed next-URL query key into the mapping
with a list-of-strings value. -/
theorem C10_params_mutation :
    (∀ (st : ReqState) (u : String) (params : Dict)
       (out : GDResult × Dict × ReqState) (r : Response) (rest : List Response),
       st.responses = r :: rest →
       dget params "per_page" = none →
       get_data st u .GET params = .ok out →
       (dget out.2.1 "per_page").isSome ∧ out.2.1 ≠ params) ∧
    (∀ (p : Dict) (q k : String) (vs : List String),
       (k, vs) ∈ parse_qs q →
       dget (mergeQuery p q) k = some (.list (vs.map JVal.str))) := by
  constructor
  · intro st u params out r rest hr hpp h
    have hwpp : (dget (withPerPage .GET params) "per_page").isSome := by
      unfold withPerPage
      simp only [hpp, Option.isSome_none, Bool.false_eq_true, if_false]
      rw [dget_dset_self]
      rfl
    have hsome : (dget out.2.1 "per_page").isSome := by
      rcases get_data_ok_inv st u .GET params out r rest hr h with
        ⟨_, _, _, _, hp⟩ | ⟨_, _, _, _, hp⟩
      · rw [hp]; exact hwpp
      · exact hp _ hwpp
    refine ⟨hsome, ?_⟩
    intro he
    rw [he, hpp] at hsome
    simp at hsome
  · intro p q k vs hmem
    exact mergeQuery_mem p q k vs hmem

/-- C10 fixture: one plain 200 response without links. -/
def rC10 : Response := ⟨200, .ok (.obj [("k", .num 1)]), []⟩

/-- C10 result fixture. -/
def outC10 : GDResult × Dict × ReqState :=
  (.payload (.obj [("k", .num 1)]), [("per_page", .num 200)], mkState ["t"] [])

/-- C10 witness: a GET with empty params comes back with `per_page`
inserted, and merging the query `page=2` stores
`page ↦ ["2"]` as a list of strings. -/
theorem C10_witness :
    ((dget outC10.2.1 "per_page").isSome ∧ outC10.2.1 ≠ []) ∧
    dget (mergeQuery [] "page=2") "page" = some (.list [.str "2"]) :=
  ⟨C10_params_mutation.1 (mkState ["t"] [rC10]) "d" [] outC10 rC10 [] rfl rfl rfl,
   C10_params_mutation.2 [] "page=2" "page" ["2"] (by decide)⟩

end DO

namespace DO

/-- C6: a paginated GET over three pages — pages 1 and 2 carry a
`links.pages.next` URL, page 3 does not — returns one mapping, the
result of merging the three page bodies in order; in it every key
list-valued on all three pages holds the concatenation of the three
lists in page order, and every key whose page-3 value is not a list
holds exactly page 3's value (the newest page overwrites). -/
theorem C6_three_page_merge
    (st : ReqState) (u : String) (params : Dict)
    (r1 r2 r3 : Response) (rest : List Response)
    (p1 p2 p3 A1 A2 : Dict) (s1 u1 q1 s2 u2 q2 : String) (n3 : JVal)
    (hne : st.tokens ≠ []) (hok : "" ∉ st.tokens)
    (hr : st.responses = r1 :: r2 :: r3 :: rest)
    (h204 : r1.status ≠ 204) (h404 : r1.status ≠ 404) (hok1 : respOk r1 = true)
    (hb1 : r1.body = .ok (.obj p1)) (hb2 : r2.body = .ok (.obj p2))
    (hb3 : r3.body = .ok (.obj p3))
    (hc1 : chainNext (.obj p1) = .ok (.str s1))
    (hsp1 : splitFirst s1 '?' = some (u1, q1))
    (hc2 : chainNext (.obj p2) = .ok (.str s2))
    (hsp2 : splitFirst s2 '?' = some (u2, q2))
    (hc3 : chainNext (.obj p3) = .ok n3) (htr3 : truthy n3 = false)
    (hpg : dget params "page" = none)
    (hnd2 : (p2.map Prod.fst).Nodup) (hnd3 : (p3.map Prod.fst).Nodup)
    (hm1 : mergeObj p1 p2 = .ok A1) (hm2 : mergeObj A1 p3 = .ok A2) :
    (∃ pOut stOut, get_data st u .GET params =
       .ok (.payload (.obj A2), pOut, stOut)) ∧
    (∀ k xs1 xs2 xs3,
       dget p1 k = some (.list xs1) → dget p2 k = some (.list xs2) →
       dget p3 k = some (.list xs3) →
       dget A2 k = some (.list (xs1 ++ xs2 ++ xs3))) ∧
    (∀ k v, dget p3 k = some v → (∀ xs, v ≠ .list xs) →
       dget A2 k = some v) := by
  refine ⟨?_, ?_, ?_⟩
  · have hs1ne : s1 ≠ "" := by
      intro he
      subst he
      simp [splitFirst, splitOnceChar, String.data] at hsp1
    have htr1 : truthy (JVal.str s1) = true := by simp [truthy, hs1ne]
    have hpage1 : dget (withPerPage .GET params) "page" = none := by
      unfold withPerPage
      by_cases hpp : (dget params "per_page").isSome
      · simp only [hpp, if_true]
        exact hpg
      · simp only [hpp, Bool.false_eq_true, if_false]
        rw [dget_dset_ne params "per_page" "page" (.num 200) (by decide)]
        exact hpg
    rw [get_data_ok_eq st u .GET params r1 (r2 :: r3 :: rest) (.obj p1)
      (.str s1) hne hok hr h204 h404 hb1 hok1 hc1]
    have hcond :
        (truthy (JVal.str s1) &&
          (dget (withPerPage .GET params) "page").isNone) = true := by
      simp [htr1, hpage1]
    rw [if_pos hcond]
    set stA := initRatelimit
      { st with lastUsed := (st.lastUsed + 2) % st.tokens.length,
                responses := r2 :: r3 :: rest } r1.headers with hstA
    have hneA : stA.tokens ≠ [] := hne
    have hokA : "" ∉ stA.tokens := hok
    have hprB := performRequest_eq stA
      u1 .GET (mergeQuery (withPerPage .GET params) q1) r2 (r3 :: rest)
      hneA hokA rfl
    have hdeal :
        dealWithPagination stA .GET (withPerPage .GET params) (.obj p1) =
        paginationLoop .GET (rest.length + 1 + 1)
          stA (withPerPage .GET params) (.obj p1) (.obj p1) := rfl
    rw [hdeal]
    rw [paginationLoop_step .GET (rest.length + 1) _ _ _ _ _ _ _ _ _ _ _ _
      hc1 hsp1 hprB hb2 hm1]
    set stB := ({ stA with
      lastUsed := (stA.lastUsed + 2) % stA.tokens.length
      responses := r3 :: rest } : ReqState) with hstB
    have hneB : stB.tokens ≠ [] := hne
    have hokB : "" ∉ stB.tokens := hok
    have hprC := performRequest_eq stB
      u2 .GET (mergeQuery (mergeQuery (withPerPage .GET params) q1) q2) r3 rest
      hneB hokB rfl
    rw [paginationLoop_step .GET rest.length _ _ _ _ _ _ _ _ _ _ _ _
      hc2 hsp2 hprC hb3 hm2]
    rw [paginationLoop_exit _ _ _ _ _ _ n3 hc3 htr3]
    exact ⟨_, _, rfl⟩
  · intro k xs1 xs2 xs3 h1 h2 h3
    have hA1 : dget A1 k = some (.list (xs1 ++ xs2)) :=
      mergeObj_list_concat p2 p1 A1 k xs2 xs1 hnd2 h2 h1 hm1
    exact mergeObj_list_concat p3 A1 A2 k xs3 (xs1 ++ xs2) hnd3 h3 hA1 hm2
  · intro k v hp hv
    exact mergeObj_overwrite p3 A1 A2 k v hnd3 hp hv hm2

end DO

namespace DO

/-- C6 fixture, page 1 body. -/
def p1C6 : Dict :=
  [("k", .list [.str "a"]),
   ("links", .obj [("pages", .obj [("next", .str "u?page=2")])])]

/-- C6 fixture, page 2 body. -/
def p2C6 : Dict :=
  [("k", .list [.str "b"]),
   ("links", .obj [("pages", .obj [("next", .str "u?page=3")])])]

/-- C6 fixture, page 3 body: no next link, one scalar field. -/
def p3C6 : Dict :=
  [("k", .list [.str "c"]), ("links", .obj []), ("total", .num 3)]

/-- C6 fixture, pages 1 and 2 merged. -/
def a1C6 : Dict :=
  [("k", .list [.str "a", .str "b"]),
   ("links", .obj [("pages", .obj [("next", .str "u?page=3")])])]

/-- C6 fixture, all three pages merged. -/
def a2C6 : Dict :=
  [("k", .list [.str "a", .str "b", .str "c"]), ("links", .obj []),
   ("total", .num 3)]

/-- C6 fixture session. -/
def stC6 : ReqState :=
  mkState ["t"] [⟨200, .ok (.obj p1C6), []⟩, ⟨200, .ok (.obj p2C6), []⟩,
                 ⟨200, .ok (.obj p3C6), []⟩]

/-- C6 witness: the three-page session returns the merged mapping,
with the list field concatenated in page order and the scalar field
equal to page 3's value. -/
theorem C6_witness :
    (∃ pOut stOut, get_data stC6 "d" .GET [] =
       .ok (.payload (.obj a2C6), pOut, stOut)) ∧
    dget a2C6 "k" = some (.list [.str "a", .str "b", .str "c"]) ∧
    dget a2C6 "total" = some (.num 3) := by
  have h := C6_three_page_merge stC6 "d" []
    ⟨200, .ok (.obj p1C6), []⟩ ⟨200, .ok (.obj p2C6), []⟩
    ⟨200, .ok (.obj p3C6), []⟩ []
    p1C6 p2C6 p3C6 a1C6 a2C6
    "u?page=2" "u" "page=2" "u?page=3" "u" "page=3" .null
    (by decide) (by decide) rfl (by decide) (by decide) rfl
    rfl rfl rfl rfl rfl rfl rfl rfl rfl rfl
    (by decide) (by decide) rfl rfl
  exact ⟨h.1,
    h.2.1 "k" [.str "a"] [.str "b"] [.str "c"] rfl rfl rfl,
    h.2.2 "total" (.num 3) rfl (fun xs h1 => JVal.noConfusion h1)⟩

end DO
